import Mathlib

/-!
Verification of the PullUp exploration and knowledge-merge pipeline.

This development shallowly embeds the core logic of the repository's
`lib/explorer.js` and `lib/updater.js`.

Embedding conventions:

* JavaScript strings are Lean `String`s; the JS string operations the source
  uses (`includes`, `toLowerCase`, `endsWith`, `split`, `Array.join`,
  `parseInt`, `String(n)`) are embedded as executable functions below,
  working on the character list underlying a `String`.
* A parsed URL (`new URL(s)`) is embedded as the record of the observables
  the source reads from it: `hostname`, `pathname`, `hash`, together with a
  `valid` flag modelling whether the `URL` constructor would throw on the
  underlying string.  Equality of URL strings is embedded as equality of
  these observables.
* The browser (Playwright) is an external collaborator of the explorer; it
  is embedded as a `World` assigning to every URL the navigation response
  status, the extraction step (if any) that throws, and the extracted page
  data, forms, interactive elements and outbound links.
* The crawl loop of `ExplorationEngine.explore` is embedded as a
  well-founded recursion over an explicit crawl state.  Two ghost fields
  (`exploredLog`, `enqueuedLog`) record the sequence of explored pages and
  of insertions into the pending queue; they influence nothing.
-/

namespace Pullup

/-! ## JS string primitives -/

/-- JS `haystack.includes(needle)`: substring occurrence test. -/
def jsIncludes (hay needle : String) : Bool :=
  hay.data.tails.any (fun t => needle.data.isPrefixOf t)

/-- JS `s.toLowerCase()` (ASCII case mapping, which is all the source feeds it). -/
def jsToLower (s : String) : String :=
  String.mk (s.data.map Char.toLower)

/-- JS `s.endsWith(suffix)`. -/
def jsEndsWith (s sfx : String) : Bool :=
  sfx.data.isSuffixOf s.data

/-- JS regular expression `/\d+$/.test(s)`: the string ends in a decimal digit. -/
def endsWithDigit (s : String) : Bool :=
  match s.data.getLast? with
  | some c => c.isDigit
  | none => false

/-- JS `s.split(sep)` for a one-character separator, on character lists.
`splitOnChar sep cs` is never empty, and `"".split(sep) = [""]` holds. -/
def splitOnChar (sep : Char) : List Char → List (List Char)
  | [] => [[]]
  | c :: cs =>
    if c = sep then [] :: splitOnChar sep cs
    else
      match splitOnChar sep cs with
      | [] => [[c]]
      | p :: ps => (c :: p) :: ps

/-- JS `parts.join(sep)` for a one-character separator, on character lists. -/
def joinWithChar (sep : Char) : List (List Char) → List Char
  | [] => []
  | [p] => p
  | p :: ps => p ++ sep :: joinWithChar sep ps

/-- Numeric value of a list of decimal digit characters (big-endian). -/
def digitsToNat (ds : List Char) : Nat :=
  Nat.ofDigits 10 ((ds.map (fun c => c.toNat - 48)).reverse)

/-- JS `parseInt(s)` restricted to the inputs the source produces: reads the
longest leading run of decimal digits; `none` models the `NaN` result. -/
def jsParseInt (cs : List Char) : Option Nat :=
  match cs.takeWhile Char.isDigit with
  | [] => none
  | ds => some (digitsToNat ds)

/-- Little-endian decimal digits of `n`, computed with structural fuel so
that the kernel can evaluate it; `natDigitsRev_eq` identifies it with
`Nat.digits 10`. -/
def natDigitsRevAux : Nat → Nat → List Nat
  | 0, _ => []
  | _ + 1, 0 => []
  | fuel + 1, n + 1 => ((n + 1) % 10) :: natDigitsRevAux fuel ((n + 1) / 10)

/-- Little-endian decimal digits of `n` (empty for zero). -/
def natDigitsRev (n : Nat) : List Nat := natDigitsRevAux n n

/-- JS `String(n)` for a non-negative number `n`: its decimal digits. -/
def natToDigitChars (n : Nat) : List Char :=
  if n = 0 then [Char.ofNat 48]
  else ((natDigitsRev n).reverse.map (fun d => Char.ofNat (48 + d)))

/-! ## URLs -/

/-- Observables of `new URL(s)` that the source reads.  `valid = false`
models a string on which the `URL` constructor throws; `hash = ""` models an
absent fragment (the empty `hash` is the falsy case in the source). -/
structure Url where
  valid : Bool
  host : String
  path : String
  hash : String
deriving DecidableEq, Repr

/-! ## Explorer data model (`lib/explorer.js`) -/

/-- Raw page facts returned by the in-page `page.evaluate` of
`extractPageData`: title, first h1 heading, meta description, and the
500-character body-text prefix. -/
structure PageData where
  title : String
  heading : String
  description : String
  bodyText : String
deriving DecidableEq, Repr

/-- Entry of the pending-visit queue `this.toVisit`: `{ url, depth }`. -/
structure Frontier where
  url : Url
  depth : Nat
deriving DecidableEq, Repr

/-- The `skipExtensions` list of `shouldFollowLink`. -/
def skipExtensions : List String :=
  [".pdf", ".jpg", ".jpeg", ".png", ".gif", ".svg", ".zip", ".exe", ".dmg"]

/-- Embedding of `shouldFollowLink(url)`.  `baseDomain` is the engine's
`this.baseDomain` (the start URL's hostname) and `firstPath` is the pathname
of `this.visited.values().next().value || this.targetUrl`, i.e. of the first
URL inserted into the visited set (the start URL once anything was visited).
An invalid URL makes the constructor throw, which the source catches,
returning `false`. -/
def shouldFollowLink (baseDomain firstPath : String) (link : Url) : Bool :=
  if !link.valid then false
  else if link.host != baseDomain then false
  else if skipExtensions.any (fun ext => jsEndsWith (jsToLower link.path) ext) then false
  else if link.path == firstPath && link.hash != "" then false
  else true

/-- Embedding of `classifyPage(data, path)`: a priority-ordered keyword
match, first match wins. -/
def classifyPage (data : PageData) (path : String) : String :=
  let lowerTitle := jsToLower (data.title ++ (" ") ++ data.heading ++ (" ") ++ path)
  if jsIncludes lowerTitle ("login") || jsIncludes lowerTitle ("sign in") then ("login")
  else if jsIncludes lowerTitle ("signup") || jsIncludes lowerTitle ("register")
      || jsIncludes lowerTitle ("sign up") then ("signup")
  else if jsIncludes lowerTitle ("dashboard") then ("dashboard")
  else if jsIncludes lowerTitle ("profile") || jsIncludes lowerTitle ("account") then ("profile")
  else if jsIncludes lowerTitle ("contact") then ("contact")
  else if jsIncludes lowerTitle ("about") then ("about")
  else if path == ("/") || path == ("") then ("homepage")
  else if endsWithDigit path || jsIncludes path ("detail") then ("detail")
  else if jsIncludes path ("list") || jsIncludes data.bodyText ("showing")
      || jsIncludes data.bodyText ("results") then ("list")
  else ("page")

/-- JS `str.charAt(0).toUpperCase() + str.slice(1)` (`capitalize`). -/
def capitalize (cs : List Char) : List Char :=
  match cs with
  | [] => []
  | c :: rest => c.toUpper :: rest

/-- Test for the source's UUID regex: eight lowercase hexadecimal characters
followed by a dash, at the start of the string. -/
def isUuidLike (cs : List Char) : Bool :=
  decide ((cs.take 8).length = 8)
    && (cs.take 8).all (fun c => c.isDigit || (decide ('a' ≤ c) && decide (c ≤ 'f')))
    && (match cs.drop 8 with
        | c :: _ => c = '-'
        | [] => false)

/-- Embedding of `generatePageName(urlPath, title)`. -/
def generatePageName (urlPath title : String) : String :=
  if urlPath == ("/") || urlPath == ("") then ("Homepage")
  else if title != ("") && decide (0 < title.data.length) && decide (title.data.length < 50) then
    title
  else
    let pathParts := (splitOnChar '/' urlPath.data).filter (fun p => !p.isEmpty)
    match pathParts.getLast? with
    | none => ("Homepage")
    | some lastPart =>
      if (!lastPart.isEmpty && lastPart.all Char.isDigit) || isUuidLike lastPart then
        match pathParts.dropLast.getLast? with
        | some secondLast => String.mk (capitalize secondLast) ++ (" Detail")
        | none => ("Detail Page")
      else
        String.mk (capitalize (lastPart.map (fun c => if c = '-' || c = '_' then ' ' else c)))

/-- PageRecord produced by `extractPageData` for a successfully loaded page. -/
structure PageRecord where
  url : Url
  path : String
  pageName : String
  pageType : String
  title : String
  heading : String
  description : String
  preview : String
deriving DecidableEq, Repr

/-- Builds the record `extractPageData` returns for URL `u` with raw facts `d`. -/
def mkPageRecord (d : PageData) (u : Url) : PageRecord :=
  { url := u
    path := u.path
    pageName := generatePageName u.path d.title
    pageType := classifyPage d u.path
    title := d.title
    heading := d.heading
    description := d.description
    preview := d.bodyText }

/-- Form facts extracted by `extractForms` (opaque to the crawl control flow). -/
structure ExForm where
  action : String
  method : String
  fieldCount : Nat
deriving DecidableEq, Repr

/-- Interactive-element facts extracted by `extractInteractiveElements`
(opaque to the crawl control flow). -/
structure ExElement where
  kind : String
  text : String
deriving DecidableEq, Repr

/-- Outcome of the extraction phase of one `explorePage` call: either one of
the four fallible `page.evaluate` steps throws (`extractPageData`,
`extractForms`, `extractInteractiveElements`, `extractLinks`), or all
succeed.  `captureScreenshot` catches its own errors and is elided. -/
inductive ExtractOutcome where
  | throwAtData
  | throwAtForms
  | throwAtElements
  | throwAtLinks
  | ok
deriving DecidableEq, Repr

/-- The external browsing capability: for each URL, the final navigation
response status (`none` models a navigation failure or timeout, i.e. the
`.catch(() => null)` branch), which extraction step throws if any, and the
extracted facts. -/
structure World where
  response : Url → Option Nat
  extract : Url → ExtractOutcome
  pageData : Url → PageData
  forms : Url → List ExForm
  elements : Url → List ExElement
  links : Url → List Url

/-- Explorer configuration after constructor defaulting: `maxDepth` is
`config.maxDepth || 3`, `maxPages` is `config.maxPages || 50`, and `start`
is the parsed `targetUrl` (`this.baseUrl`); `this.baseDomain` is
`start.host`. -/
structure ExploreConfig where
  start : Url
  maxDepth : Nat
  maxPages : Nat

/-- Mutable state of one exploration run, plus two ghost logs: `exploredLog`
records every `explorePage` invocation in order, `enqueuedLog` every entry
ever pushed onto `toVisit` after the initial seed. -/
structure ExploreState where
  visited : List Url
  toVisit : List Frontier
  pages : List PageRecord
  forms : List ExForm
  elements : List ExElement
  exploredLog : List Frontier
  enqueuedLog : List Frontier
deriving DecidableEq, Repr

/-- JS `Set.add`: append if absent (JS sets preserve insertion order). -/
def addVisited (visited : List Url) (u : Url) : List Url :=
  if u ∈ visited then visited else visited ++ [u]

/-- Pathname of `this.visited.values().next().value || this.targetUrl`:
the first visited URL, or the start URL while nothing is visited. -/
def firstVisitedPath (cfg : ExploreConfig) (s : ExploreState) : String :=
  ((s.visited.head?).getD cfg.start).path

/-- Embedding of the link loop at the end of `explorePage`: every extracted
link that passes `shouldFollowLink` and is not yet visited is pushed onto
`toVisit` with depth `depth + 1`.  The loop mutates only the queue, so it is
embedded as one filtered append. -/
def enqueueLinks (cfg : ExploreConfig) (s : ExploreState) (depth : Nat)
    (links : List Url) : ExploreState :=
  let eligible := links.filter
    (fun link => shouldFollowLink cfg.start.host (firstVisitedPath cfg s) link
      && !(s.visited.contains link))
  let entries := eligible.map (fun l => Frontier.mk l (depth + 1))
  { s with toVisit := s.toVisit ++ entries, enqueuedLog := s.enqueuedLog ++ entries }

/-- Embedding of `explorePage(page, url, depth)`.  The URL is added to the
visited set first; a failed navigation (`null` response or status `>= 400`)
records nothing; afterwards each extraction step may throw, and everything
pushed before the throwing step stays recorded.  The surrounding
`try`/`catch` turns any throw into a silent return. -/
def explorePage (w : World) (cfg : ExploreConfig) (s : ExploreState)
    (url : Url) (depth : Nat) : ExploreState :=
  let s0 := { s with visited := addVisited s.visited url
                     exploredLog := s.exploredLog ++ [Frontier.mk url depth] }
  match w.response url with
  | none => s0
  | some status =>
    if 400 ≤ status then s0
    else
      match w.extract url with
      | ExtractOutcome.throwAtData => s0
      | ExtractOutcome.throwAtForms =>
        { s0 with pages := s0.pages ++ [mkPageRecord (w.pageData url) url] }
      | ExtractOutcome.throwAtElements =>
        { s0 with pages := s0.pages ++ [mkPageRecord (w.pageData url) url]
                  forms := s0.forms ++ w.forms url }
      | ExtractOutcome.throwAtLinks =>
        { s0 with pages := s0.pages ++ [mkPageRecord (w.pageData url) url]
                  forms := s0.forms ++ w.forms url
                  elements := s0.elements ++ w.elements url }
      | ExtractOutcome.ok =>
        let s1 := { s0 with pages := s0.pages ++ [mkPageRecord (w.pageData url) url]
                            forms := s0.forms ++ w.forms url
                            elements := s0.elements ++ w.elements url }
        enqueueLinks cfg s1 depth (w.links url)

theorem length_visited_explorePage (w : World) (cfg : ExploreConfig)
    (s : ExploreState) (url : Url) (depth : Nat) (h : url ∉ s.visited) :
    (explorePage w cfg s url depth).visited.length = s.visited.length + 1 := by
  have hadd : addVisited s.visited url = s.visited ++ [url] := by
    simp [addVisited, h]
  unfold explorePage enqueueLinks
  cases hr : w.response url with
  | none => simp [hadd]
  | some status =>
    by_cases h4 : 400 ≤ status
    · simp [hadd, h4]
    · cases hx : w.extract url <;> simp [hadd, h4]

/-- Embedding of the crawl loop of `explore`: while the queue is nonempty
and fewer than `maxPages` URLs are visited, shift the front entry; skip it
when already visited or too deep, otherwise explore it. -/
def crawlGo (w : World) (cfg : ExploreConfig) (s : ExploreState) : ExploreState :=
  if s.toVisit = [] ∨ cfg.maxPages ≤ s.visited.length then s
  else
    match hq : s.toVisit with
    | [] => s
    | current :: rest =>
      let s1 := { s with toVisit := rest }
      if current.url ∈ s1.visited ∨ cfg.maxDepth < current.depth then
        crawlGo w cfg s1
      else
        crawlGo w cfg (explorePage w cfg s1 current.url current.depth)
termination_by (cfg.maxPages - s.visited.length, s.toVisit.length)
decreasing_by
  · apply Prod.Lex.right
    simp [hq]
  · apply Prod.Lex.left
    have hv : current.url ∉ ({ s with toVisit := rest } : ExploreState).visited := by
      simp_all
    have hlen := length_visited_explorePage w cfg ({ s with toVisit := rest })
      current.url current.depth hv
    have h2 : ({ s with toVisit := rest } : ExploreState).visited.length
        = s.visited.length := rfl
    omega

/-- Initial crawl state: the seed `{ url: targetUrl, depth: 0 }`. -/
def initState (cfg : ExploreConfig) : ExploreState :=
  { visited := []
    toVisit := [Frontier.mk cfg.start 0]
    pages := []
    forms := []
    elements := []
    exploredLog := []
    enqueuedLog := [] }

/-- Embedding of `ExplorationEngine.explore()` (its crawl loop). -/
def explore (w : World) (cfg : ExploreConfig) : ExploreState :=
  crawlGo w cfg (initState cfg)

/-! ## Effect lemmas for `explorePage` and unfolding lemmas for the crawl loop -/

theorem explorePage_visited (w : World) (cfg : ExploreConfig) (s : ExploreState)
    (url : Url) (depth : Nat) :
    (explorePage w cfg s url depth).visited = addVisited s.visited url := by
  unfold explorePage enqueueLinks
  cases hr : w.response url with
  | none => rfl
  | some status =>
    by_cases h4 : 400 ≤ status
    · simp [h4]
    · cases hx : w.extract url <;> simp [h4]

theorem explorePage_exploredLog (w : World) (cfg : ExploreConfig) (s : ExploreState)
    (url : Url) (depth : Nat) :
    (explorePage w cfg s url depth).exploredLog
      = s.exploredLog ++ [Frontier.mk url depth] := by
  unfold explorePage enqueueLinks
  cases hr : w.response url with
  | none => rfl
  | some status =>
    by_cases h4 : 400 ≤ status
    · simp [h4]
    · cases hx : w.extract url <;> simp [h4]

theorem mem_visited_explorePage (w : World) (cfg : ExploreConfig) (s : ExploreState)
    (url : Url) (depth : Nat) :
    url ∈ (explorePage w cfg s url depth).visited := by
  rw [explorePage_visited]
  unfold addVisited
  by_cases h : url ∈ s.visited <;> simp [h]

theorem explorePage_enqueue (w : World) (cfg : ExploreConfig) (s : ExploreState)
    (url : Url) (depth : Nat) :
    ∃ entries : List Frontier,
      (explorePage w cfg s url depth).toVisit = s.toVisit ++ entries
      ∧ (explorePage w cfg s url depth).enqueuedLog = s.enqueuedLog ++ entries
      ∧ ∀ e ∈ entries,
          e.depth = depth + 1
          ∧ shouldFollowLink cfg.start.host
              (((addVisited s.visited url).head?.getD cfg.start).path) e.url = true
          ∧ e.url ∉ addVisited s.visited url := by
  unfold explorePage enqueueLinks
  cases hr : w.response url with
  | none => exact ⟨[], by simp⟩
  | some status =>
    by_cases h4 : 400 ≤ status
    · exact ⟨[], by simp [h4]⟩
    · cases hx : w.extract url
      · exact ⟨[], by simp [h4]⟩
      · exact ⟨[], by simp [h4]⟩
      · exact ⟨[], by simp [h4]⟩
      · exact ⟨[], by simp [h4]⟩
      · refine ⟨((w.links url).filter
          (fun link => shouldFollowLink cfg.start.host
              (firstVisitedPath cfg { s with visited := addVisited s.visited url }) link
            && !((addVisited s.visited url).contains link))).map
              (fun l => Frontier.mk l (depth + 1)), ?_, ?_, ?_⟩
        · simp [h4, firstVisitedPath]
        · simp [h4, firstVisitedPath]
        · intro e he
          simp only [List.mem_map] at he
          obtain ⟨l, hl, rfl⟩ := he
          simp only [List.mem_filter] at hl
          obtain ⟨hmem, hcond⟩ := hl
          simp only [Bool.and_eq_true, Bool.not_eq_eq_eq_not, Bool.not_true] at hcond
          refine ⟨rfl, ?_, ?_⟩
          · simpa [firstVisitedPath] using hcond.1
          · intro hin
            have h2 := hcond.2
            simp at h2
            exact h2 hin

theorem crawlGo_stop (w : World) (cfg : ExploreConfig) (s : ExploreState)
    (h : s.toVisit = [] ∨ cfg.maxPages ≤ s.visited.length) :
    crawlGo w cfg s = s := by
  rw [crawlGo, if_pos h]

theorem crawlGo_skip (w : World) (cfg : ExploreConfig) (s : ExploreState)
    (current : Frontier) (rest : List Frontier)
    (hq : s.toVisit = current :: rest)
    (hrun : ¬ cfg.maxPages ≤ s.visited.length)
    (hskip : current.url ∈ s.visited ∨ cfg.maxDepth < current.depth) :
    crawlGo w cfg s = crawlGo w cfg { s with toVisit := rest } := by
  rw [crawlGo, if_neg (by simp [hq, hrun])]
  split
  · simp_all
  · rename_i current2 rest2 heq
    rw [hq] at heq
    injection heq with h1 h2
    subst h1
    subst h2
    rw [if_pos hskip]

theorem crawlGo_explore (w : World) (cfg : ExploreConfig) (s : ExploreState)
    (current : Frontier) (rest : List Frontier)
    (hq : s.toVisit = current :: rest)
    (hrun : ¬ cfg.maxPages ≤ s.visited.length)
    (hgo : ¬ (current.url ∈ s.visited ∨ cfg.maxDepth < current.depth)) :
    crawlGo w cfg s
      = crawlGo w cfg (explorePage w cfg { s with toVisit := rest } current.url current.depth) := by
  rw [crawlGo, if_neg (by simp [hq, hrun])]
  split
  · simp_all
  · rename_i current2 rest2 heq
    rw [hq] at heq
    injection heq with h1 h2
    subst h1
    subst h2
    rw [if_neg hgo]

/-! ## Crawl bounds and termination (C3) -/

theorem crawlGo_bounds (w : World) (cfg : ExploreConfig) (s : ExploreState)
    (hlen : s.visited.length ≤ cfg.maxPages)
    (hdep : ∀ e ∈ s.exploredLog, e.depth ≤ cfg.maxDepth) :
    (crawlGo w cfg s).visited.length ≤ cfg.maxPages
    ∧ (∀ e ∈ (crawlGo w cfg s).exploredLog, e.depth ≤ cfg.maxDepth)
    ∧ ((crawlGo w cfg s).toVisit = [] ∨ cfg.maxPages ≤ (crawlGo w cfg s).visited.length) := by
  induction s using crawlGo.induct w cfg with
  | case1 x hstop =>
    rw [crawlGo_stop w cfg x hstop]
    exact ⟨hlen, hdep, hstop⟩
  | case2 x hcont hnil =>
    exact absurd (Or.inl hnil) hcont
  | case3 x hcont current rest hq s1 hskip ih =>
    have hrun : ¬ cfg.maxPages ≤ x.visited.length := by
      intro hc
      exact hcont (Or.inr hc)
    rw [crawlGo_skip w cfg x current rest hq hrun hskip]
    exact ih hlen hdep
  | case4 x hcont current rest hq s1 hgo ih =>
    have hrun : ¬ cfg.maxPages ≤ x.visited.length := by
      intro hc
      exact hcont (Or.inr hc)
    rw [crawlGo_explore w cfg x current rest hq hrun hgo]
    push_neg at hgo
    apply ih
    · rw [explorePage_visited]
      unfold addVisited
      by_cases hv : current.url ∈ ({ x with toVisit := rest } : ExploreState).visited
      · simp [hv]
        exact hlen
      · simp [hv]
        omega
    · rw [explorePage_exploredLog]
      intro e he
      rcases List.mem_append.mp he with h | h
      · exact hdep e h
      · simp at h
        subst h
        exact hgo.2

/-! ## Breadth-first order (C7) -/

/-- Depth sequence of a list of frontier entries. -/
def depthsOf (l : List Frontier) : List Nat := l.map (fun e => e.depth)

/-- BFS invariant of the crawl state: queue depths are non-decreasing and at
most one above the front depth; explored depths are non-decreasing and below
every queued depth. -/
def BfsInv (s : ExploreState) : Prop :=
  List.Sorted (fun a b => a ≤ b) (depthsOf s.toVisit)
  ∧ (∀ e ∈ s.toVisit, ∀ hd ∈ s.toVisit.head?, e.depth ≤ hd.depth + 1)
  ∧ List.Sorted (fun a b => a ≤ b) (depthsOf s.exploredLog)
  ∧ (∀ e ∈ s.exploredLog, ∀ f ∈ s.toVisit, e.depth ≤ f.depth)

theorem depthsOf_cons (e : Frontier) (l : List Frontier) :
    depthsOf (e :: l) = e.depth :: depthsOf l := rfl

theorem depthsOf_append (l1 l2 : List Frontier) :
    depthsOf (l1 ++ l2) = depthsOf l1 ++ depthsOf l2 := by
  simp [depthsOf]

theorem mem_depthsOf (n : Nat) (l : List Frontier) :
    n ∈ depthsOf l ↔ ∃ e ∈ l, e.depth = n := by
  simp [depthsOf]

theorem bfsInv_skip (s : ExploreState) (current : Frontier) (rest : List Frontier)
    (hq : s.toVisit = current :: rest) (hinv : BfsInv s) :
    BfsInv { s with toVisit := rest } := by
  obtain ⟨q1, q2, e1, e2⟩ := hinv
  rw [hq] at q1 q2 e2
  rw [depthsOf_cons, List.sorted_cons] at q1
  refine ⟨q1.2, ?_, e1, ?_⟩
  · intro e he hd hhd
    simp only at he hhd
    have hhd' : hd ∈ rest := List.mem_of_mem_head? hhd
    have h1 : e.depth ≤ current.depth + 1 := by
      apply q2 e (List.mem_cons_of_mem current he) current
      simp
    have h2 : current.depth ≤ hd.depth := by
      apply q1.1
      rw [mem_depthsOf]
      exact ⟨hd, hhd', rfl⟩
    omega
  · intro e he f hf
    exact e2 e he f (List.mem_cons_of_mem current hf)

theorem sorted_append_nat (l1 l2 : List Nat)
    (h1 : List.Sorted (fun a b => a ≤ b) l1) (h2 : List.Sorted (fun a b => a ≤ b) l2)
    (h12 : ∀ a ∈ l1, ∀ b ∈ l2, a ≤ b) :
    List.Sorted (fun a b => a ≤ b) (l1 ++ l2) :=
  List.pairwise_append.mpr ⟨h1, h2, h12⟩

theorem sorted_of_all_eq (l : List Nat) (c : Nat) (h : ∀ a ∈ l, a = c) :
    List.Sorted (fun a b => a ≤ b) l := by
  induction l with
  | nil => exact List.sorted_nil
  | cons x xs ih =>
    rw [List.sorted_cons]
    refine ⟨?_, ih (fun a ha => h a (List.mem_cons_of_mem x ha))⟩
    intro b hb
    rw [h x (List.mem_cons_self x xs), h b (List.mem_cons_of_mem x hb)]

theorem bfsInv_explore (w : World) (cfg : ExploreConfig) (s : ExploreState)
    (current : Frontier) (rest : List Frontier)
    (hq : s.toVisit = current :: rest) (hinv : BfsInv s) :
    BfsInv (explorePage w cfg { s with toVisit := rest } current.url current.depth) := by
  obtain ⟨q1, q2, e1, e2⟩ := hinv
  rw [hq] at q1 q2 e2
  rw [depthsOf_cons, List.sorted_cons] at q1
  obtain ⟨entries, htv, hlog, hprop⟩ :=
    explorePage_enqueue w cfg ({ s with toVisit := rest }) current.url current.depth
  have htv2 : (explorePage w cfg { s with toVisit := rest } current.url current.depth).toVisit
      = rest ++ entries := htv
  have hlogEq2 : (explorePage w cfg { s with toVisit := rest } current.url
        current.depth).exploredLog
      = s.exploredLog ++ [Frontier.mk current.url current.depth] :=
    explorePage_exploredLog w cfg ({ s with toVisit := rest }) current.url current.depth
  have hdep : ∀ e ∈ entries, e.depth = current.depth + 1 := fun e he => (hprop e he).1
  have hq2' : ∀ e ∈ rest, e.depth ≤ current.depth + 1 := by
    intro e he
    apply q2 e (List.mem_cons_of_mem current he) current
    simp
  have hq1' : ∀ e ∈ rest, current.depth ≤ e.depth := by
    intro e he
    apply q1.1
    rw [mem_depthsOf]
    exact ⟨e, he, rfl⟩
  have he2c : ∀ e ∈ s.exploredLog, e.depth ≤ current.depth := by
    intro e he
    exact e2 e he current (List.mem_cons_self current rest)
  refine ⟨?_, ?_, ?_, ?_⟩
  · rw [htv2, depthsOf_append]
    apply sorted_append_nat
    · exact q1.2
    · apply sorted_of_all_eq (depthsOf entries) (current.depth + 1)
      intro a ha
      rw [mem_depthsOf] at ha
      obtain ⟨ea, hea, rfl⟩ := ha
      exact hdep ea hea
    · intro a ha b hb
      rw [mem_depthsOf] at ha hb
      obtain ⟨ea, hea, rfl⟩ := ha
      obtain ⟨eb, heb, rfl⟩ := hb
      rw [hdep eb heb]
      exact hq2' ea hea
  · intro e he hd hhd
    rw [htv2] at he hhd
    cases hrest : rest with
    | nil =>
      subst hrest
      simp only [List.nil_append] at he hhd
      have hhd' : hd ∈ entries := List.mem_of_mem_head? hhd
      rw [hdep hd hhd', hdep e he]
      omega
    | cons r rest2 =>
      subst hrest
      simp only [List.cons_append, List.head?_cons, Option.mem_some_iff] at hhd
      subst hhd
      have hcr : current.depth ≤ r.depth := hq1' r (List.mem_cons_self r rest2)
      rcases List.mem_append.mp he with h | h
      · have := hq2' e h
        omega
      · rw [hdep e h]
        omega
  · rw [hlogEq2, depthsOf_append]
    apply sorted_append_nat
    · exact e1
    · exact List.sorted_singleton _
    · intro a ha b hb
      rw [mem_depthsOf] at ha
      obtain ⟨ea, hea, rfl⟩ := ha
      simp only [depthsOf, List.map_cons, List.map_nil, List.mem_singleton] at hb
      subst hb
      exact he2c ea hea
  · intro e he f hf
    rw [hlogEq2] at he
    rw [htv2] at hf
    rcases List.mem_append.mp he with h | h
    · rcases List.mem_append.mp hf with h2 | h2
      · exact e2 e h f (List.mem_cons_of_mem current h2)
      · rw [hdep f h2]
        have := he2c e h
        omega
    · simp only [List.mem_singleton] at h
      subst h
      rcases List.mem_append.mp hf with h2 | h2
      · exact hq1' f h2
      · rw [hdep f h2]
        exact Nat.le_succ current.depth

theorem crawlGo_sorted (w : World) (cfg : ExploreConfig) (s : ExploreState)
    (hinv : BfsInv s) :
    List.Sorted (fun a b => a ≤ b) (depthsOf (crawlGo w cfg s).exploredLog) := by
  induction s using crawlGo.induct w cfg with
  | case1 x hstop =>
    rw [crawlGo_stop w cfg x hstop]
    exact hinv.2.2.1
  | case2 x hcont hnil =>
    exact absurd (Or.inl hnil) hcont
  | case3 x hcont current rest hq s1 hskip ih =>
    have hrun : ¬ cfg.maxPages ≤ x.visited.length := fun hc => hcont (Or.inr hc)
    rw [crawlGo_skip w cfg x current rest hq hrun hskip]
    exact ih (bfsInv_skip x current rest hq hinv)
  | case4 x hcont current rest hq s1 hgo ih =>
    have hrun : ¬ cfg.maxPages ≤ x.visited.length := fun hc => hcont (Or.inr hc)
    rw [crawlGo_explore w cfg x current rest hq hrun hgo]
    exact ih (bfsInv_explore w cfg x current rest hq hinv)

/-! ## Enqueue discipline (C4) -/

/-- Unfolded acceptance condition of `shouldFollowLink`. -/
theorem shouldFollowLink_eq_true (base fp : String) (u : Url) :
    shouldFollowLink base fp u = true
      ↔ (u.valid = true ∧ u.host = base
          ∧ skipExtensions.any (fun ext => jsEndsWith (jsToLower u.path) ext) = false
          ∧ ¬ (u.path = fp ∧ u.hash ≠ "")) := by
  unfold shouldFollowLink
  split_ifs with h1 h2 h3 h4 <;> simp_all

/-- Either the start URL was never visited yet (and only the start URL is
queued), or the first element of the visited set is the start URL. -/
def StartHead (cfg : ExploreConfig) (s : ExploreState) : Prop :=
  (s.visited = [] ∧ ∀ e ∈ s.toVisit, e.url = cfg.start) ∨ s.visited.head? = some cfg.start

/-- Every queue insertion ever logged passed `shouldFollowLink` evaluated
with the start host and the start path. -/
def EnqOk (cfg : ExploreConfig) (s : ExploreState) : Prop :=
  ∀ e ∈ s.enqueuedLog, shouldFollowLink cfg.start.host cfg.start.path e.url = true

theorem addVisited_head? (v : List Url) (u : Url) :
    (addVisited v u).head? = some (v.head?.getD u) := by
  cases v with
  | nil => simp [addVisited]
  | cons h t => by_cases hm : u ∈ h :: t <;> simp [addVisited, hm]

theorem explorePage_start_facts (w : World) (cfg : ExploreConfig) (x : ExploreState)
    (current : Frontier) (rest : List Frontier)
    (hq : x.toVisit = current :: rest) (hs : StartHead cfg x) :
    (explorePage w cfg { x with toVisit := rest } current.url current.depth).visited.head?
        = some cfg.start
    ∧ (∀ e ∈ (explorePage w cfg { x with toVisit := rest } current.url
          current.depth).enqueuedLog,
        e ∈ x.enqueuedLog ∨ shouldFollowLink cfg.start.host cfg.start.path e.url = true) := by
  have hvis : (explorePage w cfg { x with toVisit := rest } current.url
        current.depth).visited = addVisited x.visited current.url :=
    explorePage_visited w cfg ({ x with toVisit := rest }) current.url current.depth
  have hhead : (explorePage w cfg { x with toVisit := rest } current.url
        current.depth).visited.head? = some cfg.start := by
    rw [hvis, addVisited_head?]
    rcases hs with ⟨hnil, hall⟩ | hh
    · rw [hnil]
      simp only [List.head?_nil, Option.getD_none]
      rw [hall current (by rw [hq]; exact List.mem_cons_self current rest)]
    · rw [hh]
      rfl
  refine ⟨hhead, ?_⟩
  obtain ⟨entries, htv, hlog, hprop⟩ :=
    explorePage_enqueue w cfg ({ x with toVisit := rest }) current.url current.depth
  have hlog2 : (explorePage w cfg { x with toVisit := rest } current.url
      current.depth).enqueuedLog = x.enqueuedLog ++ entries := hlog
  intro e he
  rw [hlog2] at he
  rcases List.mem_append.mp he with h | h
  · exact Or.inl h
  · right
    have hfp := (hprop e h).2.1
    have : ((addVisited x.visited current.url).head?.getD cfg.start) = cfg.start := by
      have := hhead
      rw [hvis] at this
      rw [this]
      rfl
    rwa [this] at hfp

theorem startHead_addVisited (w : World) (cfg : ExploreConfig) (x : ExploreState)
    (current : Frontier) (rest : List Frontier)
    (hq : x.toVisit = current :: rest) (hs : StartHead cfg x) :
    StartHead cfg (explorePage w cfg { x with toVisit := rest } current.url current.depth) :=
  Or.inr (explorePage_start_facts w cfg x current rest hq hs).1

theorem crawlGo_enqueued (w : World) (cfg : ExploreConfig) (s : ExploreState)
    (hs : StartHead cfg s) (henq : EnqOk cfg s) :
    EnqOk cfg (crawlGo w cfg s) := by
  induction s using crawlGo.induct w cfg with
  | case1 x hstop =>
    rw [crawlGo_stop w cfg x hstop]
    exact henq
  | case2 x hcont hnil =>
    exact absurd (Or.inl hnil) hcont
  | case3 x hcont current rest hq s1 hskip ih =>
    have hrun : ¬ cfg.maxPages ≤ x.visited.length := fun hc => hcont (Or.inr hc)
    rw [crawlGo_skip w cfg x current rest hq hrun hskip]
    apply ih
    · rcases hs with ⟨hnil, hall⟩ | hh
      · exact Or.inl ⟨hnil, fun e he => hall e (by rw [hq]; exact List.mem_cons_of_mem current he)⟩
      · exact Or.inr hh
    · exact henq
  | case4 x hcont current rest hq s1 hgo ih =>
    have hrun : ¬ cfg.maxPages ≤ x.visited.length := fun hc => hcont (Or.inr hc)
    rw [crawlGo_explore w cfg x current rest hq hrun hgo]
    obtain ⟨hhead, hlogfact⟩ := explorePage_start_facts w cfg x current rest hq hs
    apply ih
    · exact Or.inr hhead
    · intro e he
      rcases hlogfact e he with h | h
      · exact henq e h
      · exact h

/-! ## Concrete worlds used by witnesses and counterexamples -/

/-- Start URL of the concrete test site. -/
def cxUrlRoot : Url := { valid := true, host := "h", path := "/", hash := "" }

/-- Page at path `/a` of the concrete test site. -/
def cxUrlA : Url := { valid := true, host := "h", path := "/a", hash := "" }

/-- Anchor link `/a#x` on page `/a` of the concrete test site. -/
def cxUrlAnchor : Url := { valid := true, host := "h", path := "/a", hash := "#x" }

/-- Empty raw page facts. -/
def cxPageData : PageData := { title := "", heading := "", description := "", bodyText := "" }

/-- Concrete healthy site: `/` links to `/a`, `/a` links to `/a#x`. -/
def cxWorld : World :=
  { response := fun _ => some 200
    extract := fun _ => ExtractOutcome.ok
    pageData := fun _ => cxPageData
    forms := fun _ => []
    elements := fun _ => []
    links := fun u => if u = cxUrlRoot then [cxUrlA] else if u = cxUrlA then [cxUrlAnchor] else [] }

/-- Concrete configuration: depth cap 1, page cap 50. -/
def cxConfig : ExploreConfig := { start := cxUrlRoot, maxDepth := 1, maxPages := 50 }

/-- State after the first loop iteration on `cxWorld`. -/
def cxStateA : ExploreState :=
  { visited := [cxUrlRoot]
    toVisit := [Frontier.mk cxUrlA 1]
    pages := [mkPageRecord cxPageData cxUrlRoot]
    forms := []
    elements := []
    exploredLog := [Frontier.mk cxUrlRoot 0]
    enqueuedLog := [Frontier.mk cxUrlA 1] }

/-- State after the second loop iteration on `cxWorld`. -/
def cxStateB : ExploreState :=
  { visited := [cxUrlRoot, cxUrlA]
    toVisit := [Frontier.mk cxUrlAnchor 2]
    pages := [mkPageRecord cxPageData cxUrlRoot, mkPageRecord cxPageData cxUrlA]
    forms := []
    elements := []
    exploredLog := [Frontier.mk cxUrlRoot 0, Frontier.mk cxUrlA 1]
    enqueuedLog := [Frontier.mk cxUrlA 1, Frontier.mk cxUrlAnchor 2] }

/-- Full evaluation of the crawl loop on the concrete test site. -/
theorem explore_cxWorld_eval :
    explore cxWorld cxConfig = { cxStateB with toVisit := [] } := by
  have h1 : explore cxWorld cxConfig = crawlGo cxWorld cxConfig cxStateA := by
    unfold explore
    rw [crawlGo_explore cxWorld cxConfig (initState cxConfig) (Frontier.mk cxUrlRoot 0) []
      (by decide) (by decide) (by decide)]
    congr 1
  have h2 : crawlGo cxWorld cxConfig cxStateA = crawlGo cxWorld cxConfig cxStateB := by
    rw [crawlGo_explore cxWorld cxConfig cxStateA (Frontier.mk cxUrlA 1) []
      (by decide) (by decide) (by decide)]
    congr 1
  have h3 : crawlGo cxWorld cxConfig cxStateB
      = crawlGo cxWorld cxConfig { cxStateB with toVisit := [] } :=
    crawlGo_skip cxWorld cxConfig cxStateB (Frontier.mk cxUrlAnchor 2) []
      (by decide) (by decide) (by decide)
  have h4 : crawlGo cxWorld cxConfig { cxStateB with toVisit := [] }
      = { cxStateB with toVisit := [] } :=
    crawlGo_stop cxWorld cxConfig _ (Or.inl rfl)
  rw [h1, h2, h3, h4]

/-- Concrete world whose form extraction throws on every page. -/
def cxFailWorld : World :=
  { response := fun _ => some 200
    extract := fun _ => ExtractOutcome.throwAtForms
    pageData := fun _ => cxPageData
    forms := fun _ => []
    elements := fun _ => []
    links := fun _ => [] }

/-- Concrete world answering HTTP 304 (a non-2xx status below 400). -/
def cx304World : World :=
  { response := fun _ => some 304
    extract := fun _ => ExtractOutcome.ok
    pageData := fun _ => cxPageData
    forms := fun _ => []
    elements := fun _ => []
    links := fun _ => [cxUrlA] }

/-! ## Per-page failure recovery (C6) -/

theorem explorePage_eq_of_none (w : World) (cfg : ExploreConfig) (s : ExploreState)
    (url : Url) (depth : Nat) (h : w.response url = none) :
    explorePage w cfg s url depth
      = { s with visited := addVisited s.visited url,
                 exploredLog := s.exploredLog ++ [Frontier.mk url depth] } := by
  simp [explorePage, h]

theorem explorePage_eq_of_err (w : World) (cfg : ExploreConfig) (s : ExploreState)
    (url : Url) (depth : Nat) (st : Nat) (h : w.response url = some st) (h4 : 400 ≤ st) :
    explorePage w cfg s url depth
      = { s with visited := addVisited s.visited url,
                 exploredLog := s.exploredLog ++ [Frontier.mk url depth] } := by
  simp [explorePage, h, h4]

theorem explorePage_eq_of_throwData (w : World) (cfg : ExploreConfig) (s : ExploreState)
    (url : Url) (depth : Nat) (st : Nat) (h : w.response url = some st) (h4 : ¬ 400 ≤ st)
    (hx : w.extract url = ExtractOutcome.throwAtData) :
    explorePage w cfg s url depth
      = { s with visited := addVisited s.visited url,
                 exploredLog := s.exploredLog ++ [Frontier.mk url depth] } := by
  simp [explorePage, h, h4, hx]

theorem explorePage_eq_of_throwForms (w : World) (cfg : ExploreConfig) (s : ExploreState)
    (url : Url) (depth : Nat) (st : Nat) (h : w.response url = some st) (h4 : ¬ 400 ≤ st)
    (hx : w.extract url = ExtractOutcome.throwAtForms) :
    explorePage w cfg s url depth
      = { s with visited := addVisited s.visited url,
                 exploredLog := s.exploredLog ++ [Frontier.mk url depth],
                 pages := s.pages ++ [mkPageRecord (w.pageData url) url] } := by
  simp [explorePage, h, h4, hx]

theorem explorePage_eq_of_throwElements (w : World) (cfg : ExploreConfig) (s : ExploreState)
    (url : Url) (depth : Nat) (st : Nat) (h : w.response url = some st) (h4 : ¬ 400 ≤ st)
    (hx : w.extract url = ExtractOutcome.throwAtElements) :
    explorePage w cfg s url depth
      = { s with visited := addVisited s.visited url,
                 exploredLog := s.exploredLog ++ [Frontier.mk url depth],
                 pages := s.pages ++ [mkPageRecord (w.pageData url) url],
                 forms := s.forms ++ w.forms url } := by
  simp [explorePage, h, h4, hx]

theorem explorePage_eq_of_throwLinks (w : World) (cfg : ExploreConfig) (s : ExploreState)
    (url : Url) (depth : Nat) (st : Nat) (h : w.response url = some st) (h4 : ¬ 400 ≤ st)
    (hx : w.extract url = ExtractOutcome.throwAtLinks) :
    explorePage w cfg s url depth
      = { s with visited := addVisited s.visited url,
                 exploredLog := s.exploredLog ++ [Frontier.mk url depth],
                 pages := s.pages ++ [mkPageRecord (w.pageData url) url],
                 forms := s.forms ++ w.forms url,
                 elements := s.elements ++ w.elements url } := by
  simp [explorePage, h, h4, hx]

/-- C6 (amended): for a failed page visit (navigation failure, HTTP status
at least 400, or a thrown extraction step), the URL is added to the visited
set, no outbound links are enqueued, and the crawl loop continues with the
next frontier entry; nothing is recorded when the failure strikes before the
page record is pushed, while a throw in a later extraction step leaves the
records already pushed (page record, then forms, then elements) in place. -/
theorem C6_failure_recovery_amended (w : World) (cfg : ExploreConfig)
    (s : ExploreState) (url : Url) (depth : Nat)
    (hFail : w.response url = none
      ∨ (∃ st, w.response url = some st ∧ 400 ≤ st)
      ∨ w.extract url ≠ ExtractOutcome.ok) :
    url ∈ (explorePage w cfg s url depth).visited
    ∧ (explorePage w cfg s url depth).toVisit = s.toVisit
    ∧ (explorePage w cfg s url depth).enqueuedLog = s.enqueuedLog
    ∧ ((w.response url = none ∨ (∃ st, w.response url = some st ∧ 400 ≤ st)
          ∨ w.extract url = ExtractOutcome.throwAtData) →
        (explorePage w cfg s url depth).pages = s.pages
        ∧ (explorePage w cfg s url depth).forms = s.forms
        ∧ (explorePage w cfg s url depth).elements = s.elements)
    ∧ (∀ st, w.response url = some st → st < 400 →
        (w.extract url = ExtractOutcome.throwAtForms →
          (explorePage w cfg s url depth).pages
              = s.pages ++ [mkPageRecord (w.pageData url) url]
          ∧ (explorePage w cfg s url depth).forms = s.forms
          ∧ (explorePage w cfg s url depth).elements = s.elements)
        ∧ (w.extract url = ExtractOutcome.throwAtElements →
          (explorePage w cfg s url depth).pages
              = s.pages ++ [mkPageRecord (w.pageData url) url]
          ∧ (explorePage w cfg s url depth).forms = s.forms ++ w.forms url
          ∧ (explorePage w cfg s url depth).elements = s.elements)
        ∧ (w.extract url = ExtractOutcome.throwAtLinks →
          (explorePage w cfg s url depth).pages
              = s.pages ++ [mkPageRecord (w.pageData url) url]
          ∧ (explorePage w cfg s url depth).forms = s.forms ++ w.forms url
          ∧ (explorePage w cfg s url depth).elements = s.elements ++ w.elements url))
    ∧ (∀ (s2 : ExploreState) (current : Frontier) (rest : List Frontier),
        s2.toVisit = current :: rest →
        ¬ cfg.maxPages ≤ s2.visited.length →
        ¬ (current.url ∈ s2.visited ∨ cfg.maxDepth < current.depth) →
        crawlGo w cfg s2
          = crawlGo w cfg (explorePage w cfg { s2 with toVisit := rest }
              current.url current.depth)) := by
  refine ⟨mem_visited_explorePage w cfg s url depth, ?_⟩
  have hcont : ∀ (s2 : ExploreState) (current : Frontier) (rest : List Frontier),
      s2.toVisit = current :: rest →
      ¬ cfg.maxPages ≤ s2.visited.length →
      ¬ (current.url ∈ s2.visited ∨ cfg.maxDepth < current.depth) →
      crawlGo w cfg s2
        = crawlGo w cfg (explorePage w cfg { s2 with toVisit := rest }
            current.url current.depth) :=
    fun s2 current rest h1 h2 h3 => crawlGo_explore w cfg s2 current rest h1 h2 h3
  cases hr : w.response url with
  | none =>
    rw [explorePage_eq_of_none w cfg s url depth hr]
    refine ⟨rfl, rfl, fun _ => ⟨rfl, rfl, rfl⟩, ?_, hcont⟩
    intro st2 hst2 hlt
    simp at hst2
  | some st =>
    by_cases h4 : 400 ≤ st
    · rw [explorePage_eq_of_err w cfg s url depth st hr h4]
      refine ⟨rfl, rfl, fun _ => ⟨rfl, rfl, rfl⟩, ?_, hcont⟩
      intro st2 hst2 hlt
      injection hst2 with hst2
      omega
    · have hx : w.extract url ≠ ExtractOutcome.ok := by
        rcases hFail with h | ⟨st2, hst2, h42⟩ | h
        · rw [hr] at h
          simp at h
        · rw [hr] at hst2
          injection hst2 with hst2
          omega
        · exact h
      cases hext : w.extract url with
      | ok => exact absurd hext hx
      | throwAtData =>
        rw [explorePage_eq_of_throwData w cfg s url depth st hr h4 hext]
        refine ⟨rfl, rfl, fun _ => ⟨rfl, rfl, rfl⟩, ?_, hcont⟩
        intro st2 hst2 hlt
        refine ⟨fun hc => ?_, fun hc => ?_, fun hc => ?_⟩ <;> simp_all
      | throwAtForms =>
        rw [explorePage_eq_of_throwForms w cfg s url depth st hr h4 hext]
        refine ⟨rfl, rfl, ?_, ?_, hcont⟩
        · intro hc
          rcases hc with h | ⟨st2, hst2, h42⟩ | h
          · simp_all
          · simp_all
            omega
          · simp_all
        · intro st2 hst2 hlt
          exact ⟨fun _ => ⟨rfl, rfl, rfl⟩, fun hc => by simp_all, fun hc => by simp_all⟩
      | throwAtElements =>
        rw [explorePage_eq_of_throwElements w cfg s url depth st hr h4 hext]
        refine ⟨rfl, rfl, ?_, ?_, hcont⟩
        · intro hc
          rcases hc with h | ⟨st2, hst2, h42⟩ | h
          · simp_all
          · simp_all
            omega
          · simp_all
        · intro st2 hst2 hlt
          exact ⟨fun hc => by simp_all, fun _ => ⟨rfl, rfl, rfl⟩, fun hc => by simp_all⟩
      | throwAtLinks =>
        rw [explorePage_eq_of_throwLinks w cfg s url depth st hr h4 hext]
        refine ⟨rfl, rfl, ?_, ?_, hcont⟩
        · intro hc
          rcases hc with h | ⟨st2, hst2, h42⟩ | h
          · simp_all
          · simp_all
            omega
          · simp_all
        · intro st2 hst2 hlt
          exact ⟨fun hc => by simp_all, fun hc => by simp_all, fun _ => ⟨rfl, rfl, rfl⟩⟩

/-- C6 counterexample: with form extraction throwing (a failed visit), the
page record is nevertheless recorded; and an HTTP 304 response (non-2xx) is
treated as a success, recording the page and enqueueing its links. -/
theorem C6_counterexample :
    (cxFailWorld.extract cxUrlRoot ≠ ExtractOutcome.ok
      ∧ (explorePage cxFailWorld cxConfig (initState cxConfig) cxUrlRoot 0).pages
          = [mkPageRecord cxPageData cxUrlRoot])
    ∧ (cx304World.response cxUrlRoot = some 304
      ∧ (explorePage cx304World cxConfig { initState cxConfig with toVisit := [] }
          cxUrlRoot 0).pages = [mkPageRecord cxPageData cxUrlRoot]
      ∧ (explorePage cx304World cxConfig { initState cxConfig with toVisit := [] }
          cxUrlRoot 0).toVisit = [Frontier.mk cxUrlA 1]) := by
  decide

/-- C6 witness: the amended theorem applied to the concrete failing world. -/
theorem C6_witness :
    cxUrlRoot ∈ (explorePage cxFailWorld cxConfig (initState cxConfig) cxUrlRoot 0).visited
    ∧ (explorePage cxFailWorld cxConfig (initState cxConfig) cxUrlRoot 0).toVisit
        = (initState cxConfig).toVisit := by
  obtain ⟨h1, h2, h3, h4, h5, h6⟩ :=
    C6_failure_recovery_amended cxFailWorld cxConfig (initState cxConfig) cxUrlRoot 0
      (Or.inr (Or.inr (by decide)))
  exact ⟨h1, h2⟩

/-! ## Claim theorems for the crawl loop -/

/-- C3: in every exploration run the visited set never exceeds `maxPages`
(it only ever grows, so its final size bounds the whole run), no frontier
entry with depth above `maxDepth` is ever dequeued for exploration (the
ghost `exploredLog` lists every explored entry), and the loop — a total
function by well-founded recursion, so it terminates on cyclic link graphs —
stops exactly when the pending queue is empty or the visited-set size has
reached `maxPages`, whichever comes first. -/
theorem C3_crawl_bounds_termination (w : World) (cfg : ExploreConfig) :
    (explore w cfg).visited.length ≤ cfg.maxPages
    ∧ (∀ e ∈ (explore w cfg).exploredLog, e.depth ≤ cfg.maxDepth)
    ∧ ((explore w cfg).toVisit = [] ∨ (explore w cfg).visited.length = cfg.maxPages) := by
  obtain ⟨h1, h2, h3⟩ := crawlGo_bounds w cfg (initState cfg)
    (by simp [initState]) (by simp [initState])
  refine ⟨h1, h2, ?_⟩
  rcases h3 with h | h
  · exact Or.inl h
  · exact Or.inr (le_antisymm h1 h)

/-- C3 witness: the bounds evaluated on the concrete test site. -/
theorem C3_witness :
    (explore cxWorld cxConfig).visited.length ≤ cxConfig.maxPages
    ∧ (Frontier.mk cxUrlA 1).depth ≤ cxConfig.maxDepth := by
  obtain ⟨h1, h2, h3⟩ := C3_crawl_bounds_termination cxWorld cxConfig
  refine ⟨h1, h2 (Frontier.mk cxUrlA 1) ?_⟩
  rw [explore_cxWorld_eval]
  decide

/-- C7: breadth-first order — the frontier is a FIFO queue, so the sequence
of depths of the explored (dequeued) pages is non-decreasing; equivalently,
if depth(A) < depth(B) for two visited pages then A was dequeued no later
than B. -/
theorem C7_breadth_first_order (w : World) (cfg : ExploreConfig) :
    List.Sorted (fun a b => a ≤ b) (depthsOf (explore w cfg).exploredLog) := by
  apply crawlGo_sorted
  refine ⟨?_, ?_, ?_, ?_⟩
  · exact List.sorted_singleton _
  · intro e he hd hhd
    simp [initState] at he hhd
    subst he
    subst hhd
    exact Nat.le_succ _
  · exact List.sorted_nil
  · intro e he
    simp [initState] at he

/-- C4 (amended): every entry ever pushed onto the pending queue passed
`shouldFollowLink`: its URL parses, lies on the start host (so a link to a
different network host is never enqueued), has no skipped file extension,
and is not an anchor sharing the start URL path; a link already visited at
discovery time is not pushed, and every pushed link carries depth
parent + 1 — the depth bound is not checked at enqueue time, so over-depth
entries may be enqueued (by C3 they are never explored). -/
theorem C4_enqueue_rejection_amended (w : World) (cfg : ExploreConfig) :
    (∀ e ∈ (explore w cfg).enqueuedLog,
        e.url.valid = true
        ∧ e.url.host = cfg.start.host
        ∧ skipExtensions.any (fun ext => jsEndsWith (jsToLower e.url.path) ext) = false
        ∧ ¬ (e.url.path = cfg.start.path ∧ e.url.hash ≠ ""))
    ∧ (∀ (s : ExploreState) (url : Url) (depth : Nat),
        ∃ entries, (explorePage w cfg s url depth).toVisit = s.toVisit ++ entries
          ∧ ∀ e ∈ entries, e.depth = depth + 1 ∧ e.url ∉ addVisited s.visited url) := by
  constructor
  · intro e he
    have hstart : StartHead cfg (initState cfg) := by
      refine Or.inl ⟨rfl, ?_⟩
      intro f hf
      simp [initState] at hf
      rw [hf]
    have henq0 : EnqOk cfg (initState cfg) := by
      intro f hf
      simp [initState] at hf
    have h := crawlGo_enqueued w cfg (initState cfg) hstart henq0 e he
    rw [shouldFollowLink_eq_true] at h
    exact h
  · intro s url depth
    obtain ⟨entries, htv, hlog, hprop⟩ := explorePage_enqueue w cfg s url depth
    exact ⟨entries, htv, fun e he => ⟨(hprop e he).1, (hprop e he).2.2⟩⟩

/-- C4 counterexample: on the concrete test site the link `/a#x`, discovered
on page `/a` at depth 1 with `maxDepth = 1`, is pushed onto the pending
queue although its depth 2 exceeds the configured maximum depth and although
it is a pure same-page anchor of the page it was discovered on — the claim
says a URL is silently ignored (never added to the pending queue) in both
situations. -/
theorem C4_counterexample :
    Frontier.mk cxUrlAnchor 2 ∈ (explore cxWorld cxConfig).enqueuedLog
    ∧ cxConfig.maxDepth < 2
    ∧ cxUrlAnchor.path = cxUrlA.path
    ∧ cxUrlAnchor.hash ≠ "" := by
  rw [explore_cxWorld_eval]
  decide

/-- C4 witness: the amended theorem evaluated on the concrete test site. -/
theorem C4_witness :
    (Frontier.mk cxUrlA 1).url.host = cxConfig.start.host
    ∧ (Frontier.mk cxUrlA 1).url.valid = true := by
  obtain ⟨h1, h2⟩ := C4_enqueue_rejection_amended cxWorld cxConfig
  have h := h1 (Frontier.mk cxUrlA 1) (by rw [explore_cxWorld_eval]; decide)
  exact ⟨h.2.1, h.1⟩

/-! ## Page classification as a rule list (C5) -/

/-- The spec's description of the classifier: a priority-ordered list of
(condition, result) pairs over the combined title/heading/path text, with
the body preview used only by the list rule.  Keyword spellings are those of
the source (the spec's "sign-in" names the source keyword "sign in"). -/
def pageRules (data : PageData) (path : String) : List (Bool × String) :=
  let lowerTitle := jsToLower (data.title ++ (" ") ++ data.heading ++ (" ") ++ path)
  [ (jsIncludes lowerTitle ("login") || jsIncludes lowerTitle ("sign in"), ("login")),
    (jsIncludes lowerTitle ("signup") || jsIncludes lowerTitle ("register")
      || jsIncludes lowerTitle ("sign up"), ("signup")),
    (jsIncludes lowerTitle ("dashboard"), ("dashboard")),
    (jsIncludes lowerTitle ("profile") || jsIncludes lowerTitle ("account"), ("profile")),
    (jsIncludes lowerTitle ("contact"), ("contact")),
    (jsIncludes lowerTitle ("about"), ("about")),
    (path == ("/") || path == (""), ("homepage")),
    (endsWithDigit path || jsIncludes path ("detail"), ("detail")),
    (jsIncludes path ("list") || jsIncludes data.bodyText ("showing")
      || jsIncludes data.bodyText ("results"), ("list")) ]

/-- First-match-wins evaluation of an ordered rule list. -/
def firstMatch (dflt : String) : List (Bool × String) → String
  | [] => dflt
  | (b, r) :: rest => if b then r else firstMatch dflt rest

/-- The classifier as the spec states it: first matching rule wins,
defaulting to the generic page type. -/
def classifyPageSpec (data : PageData) (path : String) : String :=
  firstMatch ("page") (pageRules data path)

/-! ## Version strings and the version bump (C2) -/

theorem splitOnChar_ne_nil (sep : Char) (cs : List Char) : splitOnChar sep cs ≠ [] := by
  induction cs with
  | nil => simp [splitOnChar]
  | cons c cs ih =>
    by_cases h : c = sep
    · simp [splitOnChar, h]
    · simp only [splitOnChar, if_neg h]
      cases hs : splitOnChar sep cs with
      | nil => simp
      | cons p ps => simp

theorem not_mem_of_mem_splitOnChar (sep : Char) (cs : List Char) :
    ∀ p ∈ splitOnChar sep cs, sep ∉ p := by
  induction cs with
  | nil =>
    intro p hp
    simp [splitOnChar] at hp
    simp [hp]
  | cons c cs ih =>
    intro p hp
    by_cases h : c = sep
    · simp only [splitOnChar, if_pos h] at hp
      rcases List.mem_cons.mp hp with rfl | hp2
      · simp
      · exact ih p hp2
    · simp only [splitOnChar, if_neg h] at hp
      cases hs : splitOnChar sep cs with
      | nil => exact absurd hs (splitOnChar_ne_nil sep cs)
      | cons q qs =>
        rw [hs] at hp
        rcases List.mem_cons.mp hp with rfl | hp2
        · intro hmem
          rcases List.mem_cons.mp hmem with he | hmem2
          · exact h he.symm
          · exact ih q (by rw [hs]; exact List.mem_cons_self q qs) hmem2
        · exact ih p (by rw [hs]; exact List.mem_cons_of_mem q hp2)

theorem splitOnChar_of_not_mem (sep : Char) (cs : List Char) (h : sep ∉ cs) :
    splitOnChar sep cs = [cs] := by
  induction cs with
  | nil => rfl
  | cons c cs ih =>
    have hc : ¬ c = sep := by
      intro he
      exact h (by rw [he]; exact List.mem_cons_self sep cs)
    have hcs : sep ∉ cs := fun hm => h (List.mem_cons_of_mem c hm)
    simp only [splitOnChar, if_neg hc]
    rw [ih hcs]

theorem splitOnChar_append_sep (sep : Char) (p rest : List Char) (h : sep ∉ p) :
    splitOnChar sep (p ++ sep :: rest) = p :: splitOnChar sep rest := by
  induction p with
  | nil => simp [splitOnChar]
  | cons c cs ih =>
    have hc : ¬ c = sep := by
      intro he
      exact h (by rw [he]; exact List.mem_cons_self sep cs)
    have hcs : sep ∉ cs := fun hm => h (List.mem_cons_of_mem c hm)
    simp only [List.cons_append, splitOnChar, if_neg hc, List.append_eq]
    rw [ih hcs]

theorem splitOnChar_joinWithChar (sep : Char) (parts : List (List Char))
    (hne : parts ≠ []) (hsep : ∀ p ∈ parts, sep ∉ p) :
    splitOnChar sep (joinWithChar sep parts) = parts := by
  induction parts with
  | nil => exact absurd rfl hne
  | cons p ps ih =>
    cases ps with
    | nil =>
      exact splitOnChar_of_not_mem sep p (hsep p (List.mem_cons_self p []))
    | cons q qs =>
      have hj : joinWithChar sep (p :: q :: qs) = p ++ sep :: joinWithChar sep (q :: qs) := rfl
      rw [hj, splitOnChar_append_sep sep p _ (hsep p (List.mem_cons_self p (q :: qs)))]
      rw [ih (by simp) (fun r hr => hsep r (List.mem_cons_of_mem p hr))]

theorem char_digit_toNat (d : Nat) (hd : d < 10) :
    (Char.ofNat (48 + d)).toNat - 48 = d := by
  interval_cases d <;> decide

theorem char_digit_isDigit (d : Nat) (hd : d < 10) :
    (Char.ofNat (48 + d)).isDigit = true := by
  interval_cases d <;> decide

theorem natDigitsRevAux_eq (fuel n : Nat) (h : n ≤ fuel) :
    natDigitsRevAux fuel n = Nat.digits 10 n := by
  induction fuel generalizing n with
  | zero =>
    have hn : n = 0 := Nat.le_zero.mp h
    subst hn
    simp [natDigitsRevAux]
  | succ fuel ih =>
    cases n with
    | zero => simp [natDigitsRevAux]
    | succ n =>
      rw [natDigitsRevAux]
      rw [Nat.digits_def' (by norm_num : (1:Nat) < 10) (Nat.succ_pos n)]
      congr 1
      apply ih
      have h1 : (n + 1) / 10 < n + 1 := Nat.div_lt_self (Nat.succ_pos n) (by norm_num)
      omega

theorem natDigitsRev_eq (n : Nat) : natDigitsRev n = Nat.digits 10 n :=
  natDigitsRevAux_eq n n (Nat.le_refl n)

theorem natToDigitChars_all_digit (n : Nat) :
    ∀ c ∈ natToDigitChars n, c.isDigit = true := by
  intro c hc
  unfold natToDigitChars at hc
  by_cases h : n = 0
  · rw [if_pos h] at hc
    simp at hc
    rw [hc]
    decide
  · rw [if_neg h, natDigitsRev_eq] at hc
    simp only [List.mem_map, List.mem_reverse] at hc
    obtain ⟨d, hd, rfl⟩ := hc
    exact char_digit_isDigit d (Nat.digits_lt_base (by norm_num) hd)

theorem natToDigitChars_ne_nil (n : Nat) : natToDigitChars n ≠ [] := by
  unfold natToDigitChars
  by_cases h : n = 0
  · simp [h]
  · simp only [if_neg h, natDigitsRev_eq]
    simp
    exact Nat.digits_ne_nil_iff_ne_zero.mpr h

theorem dot_not_mem_natToDigitChars (n : Nat) : ('.') ∉ natToDigitChars n := by
  intro hmem
  have := natToDigitChars_all_digit n ('.') hmem
  simp at this

theorem digitsToNat_natToDigitChars (n : Nat) :
    digitsToNat (natToDigitChars n) = n := by
  unfold natToDigitChars digitsToNat
  by_cases h : n = 0
  · simp [h, Nat.ofDigits]
  · rw [if_neg h, natDigitsRev_eq]
    rw [List.map_map, List.map_reverse, List.reverse_reverse]
    have hmap : (Nat.digits 10 n).map ((fun c => c.toNat - 48) ∘ (fun d => Char.ofNat (48 + d)))
        = (Nat.digits 10 n).map (fun d => d) := by
      apply List.map_congr_left
      intro d hd
      exact char_digit_toNat d (Nat.digits_lt_base (by norm_num) hd)
    rw [hmap, List.map_id']
    exact Nat.ofDigits_digits 10 n

theorem jsParseInt_all_digits (cs : List Char) (hne : cs ≠ [])
    (hdig : ∀ c ∈ cs, c.isDigit = true) :
    jsParseInt cs = some (digitsToNat cs) := by
  have htake : cs.takeWhile Char.isDigit = cs := by
    induction cs with
    | nil => rfl
    | cons c cs2 ih =>
      rw [List.takeWhile_cons]
      rw [hdig c (List.mem_cons_self c cs2)]
      simp only [if_true]
      by_cases h2 : cs2 = []
      · rw [h2]
        rfl
      · rw [ih h2 (fun c2 hc2 => hdig c2 (List.mem_cons_of_mem c hc2))]
  unfold jsParseInt
  rw [htake]
  cases cs with
  | nil => exact absurd rfl hne
  | cons c cs2 => rfl

theorem jsParseInt_natToDigitChars (n : Nat) :
    jsParseInt (natToDigitChars n) = some n := by
  rw [jsParseInt_all_digits (natToDigitChars n) (natToDigitChars_ne_nil n)
    (natToDigitChars_all_digit n)]
  rw [digitsToNat_natToDigitChars]

/-- Embedding of the version bump in `mergeKnowledge`:
`const versionParts = existing.version.split('.')`,
`versionParts[1] = parseInt(versionParts[1]) + 1`,
`merged.version = versionParts.join('.')`.
JS index assignment extends a one-element array, and a failed `parseInt`
yields `NaN`, rendered as the string `NaN` by `join`. -/
def bumpVersion (v : String) : String :=
  let parts := splitOnChar '.' v.data
  let newMinor : List Char :=
    match jsParseInt (parts.getD 1 []) with
    | some m => natToDigitChars (m + 1)
    | none => ('N' :: 'a' :: 'N' :: [])
  let parts2 := if parts.length ≤ 1 then parts ++ [newMinor] else parts.set 1 newMinor
  String.mk (joinWithChar '.' parts2)

/-- Numeric components of a dotted version string: the decimal value of each
dot-separated component. -/
def semverNums (v : String) : List Nat :=
  (splitOnChar '.' v.data).map digitsToNat

/-- Strict semantic-version order: lexicographic on numeric components. -/
def semverLt (a b : String) : Prop :=
  List.Lex (fun m n => m < n) (semverNums a) (semverNums b)

/-- Well-formed dotted semantic version: at least two dot-separated
components, each a nonempty string of decimal digits. -/
def IsDottedVersion (v : String) : Prop :=
  2 ≤ (splitOnChar '.' v.data).length
  ∧ ∀ p ∈ splitOnChar '.' v.data, p ≠ [] ∧ p.all Char.isDigit = true

theorem bumpVersion_data (v : String) (maj minor : List Char) (rest : List (List Char))
    (hsplit : splitOnChar '.' v.data = maj :: minor :: rest)
    (m : Nat) (hm : jsParseInt minor = some m) :
    (bumpVersion v).data = joinWithChar '.' (maj :: natToDigitChars (m + 1) :: rest) := by
  unfold bumpVersion
  rw [hsplit]
  simp [hm]

/-! ## Updater data model (`lib/updater.js`) -/

/-- Page entry of a persisted snapshot category list: the merge reads its
`path` and `customData`; `title` stands for the untouched remaining
payload.  `customData = none` models an absent (falsy) field. -/
structure KPage where
  path : String
  title : String
  customData : Option String
deriving DecidableEq, Repr

/-- Form entry of a snapshot: the merge reads the parsed `action` URL
pathname and `customTestData`; `method` stands for untouched payload. -/
structure KForm where
  action : Url
  method : String
  customTestData : Option String
deriving DecidableEq, Repr

/-- One entry of `updateHistory`.  The added counts of forms and flows are
JS number subtractions and may be negative. -/
structure UpdateEntry where
  date : String
  previousVersion : String
  newVersion : String
  pagesAdded : Nat
  formsAdded : Int
  flowsAdded : Int
deriving DecidableEq, Repr

/-- An application-knowledge snapshot (existing or freshly analysed):
`pages` is the category-keyed object, `updateHistory` is `none` when the
JSON field is absent, and `removedForms` is written by the merge. -/
structure Knowledge where
  appName : String
  version : String
  pages : List (String × List KPage)
  forms : List KForm
  userFlows : List String
  updateHistory : Option (List UpdateEntry)
  removedForms : List String
deriving DecidableEq, Repr

/-- JS `Map` built by `existingPages.forEach(p => existingMap.set(p.path, p))`
and read back with `existingMap.get(path)`: the last entry with a given path
wins. -/
def lastPageWithPath (ps : List KPage) (path : String) : Option KPage :=
  ps.reverse.find? (fun p => p.path == path)

/-- Merge of one fresh page record of category `cat`: carries the matching
existing page record's truthy `customData` forward
(`if (existingPage && existingPage.customData)`). -/
def mergePageEntry (existingPages : List (String × List KPage)) (cat : String)
    (p : KPage) : KPage :=
  match lastPageWithPath ((List.lookup cat existingPages).getD []) p.path with
  | some ep =>
    match ep.customData with
    | some d => { p with customData := some d }
    | none => p
  | none => p

/-- Merge of one fresh form: `existing.forms.find(...)` matches the first
existing form with the same action pathname, whose truthy `customTestData`
is carried forward. -/
def mergeFormEntry (existingForms : List KForm) (f : KForm) : KForm :=
  match existingForms.find? (fun ef => ef.action.path == f.action.path) with
  | some ef =>
    match ef.customTestData with
    | some t => { f with customTestData := some t }
    | none => f
  | none => f

/-- Embedding of `countNewPages(existing, merged)`: the number of pages of
the merged snapshot (all categories flattened) whose path does not occur in
the existing snapshot. -/
def countNewPages (existingPages mergedPages : List (String × List KPage)) : Nat :=
  let existingPaths := ((existingPages.map Prod.snd).flatten).map (fun p => p.path)
  (((mergedPages.map Prod.snd).flatten).filter
    (fun p => !(existingPaths.contains p.path))).length

/-- Pages of the merged snapshot: each category of the fresh analysis with
its page records merged in place. -/
def mergedPagesOf (existing fresh : Knowledge) : List (String × List KPage) :=
  fresh.pages.map (fun cp => (cp.1, cp.2.map (mergePageEntry existing.pages cp.1)))

/-- The history entry pushed by one `mergeKnowledge` call at time `now`. -/
def mergeEntry (existing fresh : Knowledge) (now : String) : UpdateEntry :=
  { date := now
    previousVersion := existing.version
    newVersion := bumpVersion existing.version
    pagesAdded := countNewPages existing.pages (mergedPagesOf existing fresh)
    formsAdded := (fresh.forms.length : Int) - (existing.forms.length : Int)
    flowsAdded := (fresh.userFlows.length : Int) - (existing.userFlows.length : Int) }

/-- Embedding of `mergeKnowledge(existing, newAnalysis)`, with the update
timestamp `now` passed explicitly (`new Date().toISOString()`).  The JS
function mutates both of its arguments and returns a shallow copy of the
fresh analysis, so the embedding returns the post-states of all three
objects as `(existing, fresh, merged)`: the fresh analysis's page and form
records are updated in place and the merged object aliases them, while the
new history entry is pushed onto the existing snapshot's `updateHistory`
array whenever that array exists (`existing.updateHistory || []`). -/
def mergeKnowledgeFull (existing fresh : Knowledge) (now : String) :
    Knowledge × Knowledge × Knowledge :=
  let mergedPages := mergedPagesOf existing fresh
  let existingFormPaths := (existing.forms.map (fun f => f.action.path)).eraseDups
  let newFormPaths := fresh.forms.map (fun f => f.action.path)
  let removed := existingFormPaths.filter (fun p => !(newFormPaths.contains p))
  let mergedForms := fresh.forms.map (mergeFormEntry existing.forms)
  let entry := mergeEntry existing fresh now
  ( { existing with updateHistory := existing.updateHistory.map (fun h => h ++ [entry]) },
    { fresh with pages := mergedPages, forms := mergedForms },
    { appName := fresh.appName
      version := bumpVersion existing.version
      pages := mergedPages
      forms := mergedForms
      userFlows := fresh.userFlows
      updateHistory := some ((existing.updateHistory.getD []) ++ [entry])
      removedForms := removed } )

/-- The merged snapshot returned by `mergeKnowledge`. -/
def mergeKnowledge (existing fresh : Knowledge) (now : String) : Knowledge :=
  (mergeKnowledgeFull existing fresh now).2.2

/-! ## Claim theorems for the classifier and the merge engine -/

/-- C5: page classification is exactly the priority-ordered
first-match-wins rule list the spec describes (login, signup, dashboard,
profile, contact, about, homepage, detail, list, with the generic page type
as default and the body preview used only by the list rule), and the
classifier is a pure function of the record's stored fields: re-classifying
a produced page record from its own fields returns its stored pageType. -/
theorem C5_classification_first_match (data : PageData) (path : String) :
    classifyPage data path = classifyPageSpec data path
    ∧ (∀ (d : PageData) (u : Url),
        classifyPage
          { title := (mkPageRecord d u).title
            heading := (mkPageRecord d u).heading
            description := (mkPageRecord d u).description
            bodyText := (mkPageRecord d u).preview }
          (mkPageRecord d u).path
          = (mkPageRecord d u).pageType) := by
  constructor
  · rfl
  · intro d u
    rfl

/-- C2: when the existing snapshot's version is a dotted semantic version,
the merged snapshot's version is the existing version with its minor
(second) component incremented by one and every other component unchanged,
and so the merged version is strictly greater in semantic-version order. -/
theorem C2_version_monotonicity (existing fresh : Knowledge) (now : String)
    (hv : IsDottedVersion existing.version) :
    ∃ maj minor rest,
      splitOnChar '.' existing.version.data = maj :: minor :: rest
      ∧ (mergeKnowledge existing fresh now).version.data
          = joinWithChar '.' (maj :: natToDigitChars (digitsToNat minor + 1) :: rest)
      ∧ semverNums existing.version
          = digitsToNat maj :: digitsToNat minor :: rest.map digitsToNat
      ∧ semverNums (mergeKnowledge existing fresh now).version
          = digitsToNat maj :: (digitsToNat minor + 1) :: rest.map digitsToNat
      ∧ semverLt existing.version (mergeKnowledge existing fresh now).version := by
  obtain ⟨hlen, hall⟩ := hv
  obtain ⟨maj, minor, rest, hsplit⟩ : ∃ maj minor rest,
      splitOnChar '.' existing.version.data = maj :: minor :: rest := by
    cases hs : splitOnChar '.' existing.version.data with
    | nil => exact absurd hs (splitOnChar_ne_nil _ _)
    | cons a t =>
      cases t with
      | nil =>
        rw [hs] at hlen
        simp at hlen
      | cons b t2 => exact ⟨a, b, t2, rfl⟩
  have hmem_minor : minor ∈ splitOnChar '.' existing.version.data := by
    rw [hsplit]
    exact List.mem_cons_of_mem _ (List.mem_cons_self _ _)
  have hminor : jsParseInt minor = some (digitsToNat minor) := by
    have h := hall minor hmem_minor
    apply jsParseInt_all_digits minor h.1
    intro c hc
    exact List.all_eq_true.mp h.2 c hc
  have hversion : (mergeKnowledge existing fresh now).version
      = bumpVersion existing.version := rfl
  have hdata := bumpVersion_data existing.version maj minor rest hsplit
    (digitsToNat minor) hminor
  have hnums1 : semverNums existing.version
      = digitsToNat maj :: digitsToNat minor :: rest.map digitsToNat := by
    unfold semverNums
    rw [hsplit]
    rfl
  have hnosep : ∀ p ∈ (maj :: natToDigitChars (digitsToNat minor + 1) :: rest), ('.') ∉ p := by
    intro p hp
    rcases List.mem_cons.mp hp with rfl | hp2
    · exact not_mem_of_mem_splitOnChar '.' existing.version.data p
        (by rw [hsplit]; exact List.mem_cons_self _ _)
    · rcases List.mem_cons.mp hp2 with rfl | hp3
      · exact dot_not_mem_natToDigitChars _
      · exact not_mem_of_mem_splitOnChar '.' existing.version.data p
          (by rw [hsplit]; exact List.mem_cons_of_mem _ (List.mem_cons_of_mem _ hp3))
  have hnums2 : semverNums (mergeKnowledge existing fresh now).version
      = digitsToNat maj :: (digitsToNat minor + 1) :: rest.map digitsToNat := by
    unfold semverNums
    rw [hversion, hdata]
    rw [splitOnChar_joinWithChar '.' _ (by simp) hnosep]
    simp only [List.map_cons]
    rw [digitsToNat_natToDigitChars]
  refine ⟨maj, minor, rest, hsplit, by rw [hversion]; exact hdata, hnums1, hnums2, ?_⟩
  unfold semverLt
  rw [hnums1, hnums2]
  exact List.Lex.cons (List.Lex.rel (Nat.lt_succ_self _))

/-! ## Concrete snapshots used by merge witnesses and counterexamples -/

/-- Existing page at `/p` carrying operator custom data. -/
def cxPageP : KPage := { path := "/p", title := "P", customData := some "x" }

/-- Fresh page at `/p` without custom data. -/
def cxPagePFresh : KPage := { path := "/p", title := "P", customData := none }

/-- Homepage entry shared by both snapshots of the update scenario. -/
def cxPageHome : KPage := { path := "/", title := "Home", customData := none }

/-- Added calendar page of the update scenario. -/
def cxPageCal : KPage := { path := "/calendar", title := "Calendar", customData := none }

/-- Existing snapshot: page `/p` with custom data under category `auth`. -/
def cxExisting : Knowledge :=
  { appName := "app", version := "1.0.0", pages := [(("auth"), [cxPageP])]
    forms := [], userFlows := [], updateHistory := some [], removedForms := [] }

/-- Fresh snapshot bucketing `/p` under a different category. -/
def cxFresh : Knowledge :=
  { appName := "app", version := "1.0.0", pages := [(("content"), [cxPagePFresh])]
    forms := [], userFlows := [], updateHistory := none, removedForms := [] }

/-- Fresh snapshot bucketing `/p` under the same category as the existing
snapshot. -/
def cxFresh2 : Knowledge :=
  { appName := "app", version := "1.0.0", pages := [(("auth"), [cxPagePFresh])]
    forms := [], userFlows := [], updateHistory := none, removedForms := [] }

/-- Existing snapshot of the calendar scenario, at version 1.9.0. -/
def cxKnowE : Knowledge :=
  { appName := "app", version := "1.9.0", pages := [(("content"), [cxPageHome])]
    forms := [], userFlows := [], updateHistory := some [], removedForms := [] }

/-- Fresh snapshot of the calendar scenario: one added page, no forms. -/
def cxKnowF : Knowledge :=
  { appName := "app", version := "1.0.0", pages := [(("content"), [cxPageHome, cxPageCal])]
    forms := [], userFlows := [], updateHistory := none, removedForms := [] }

/-- C2 witness: the version bump on the concrete snapshot 1.9.0, whose
merged version 1.10.0 is semver-greater (note that plain string order would
say otherwise). -/
theorem C2_witness :
    IsDottedVersion cxKnowE.version
    ∧ semverLt cxKnowE.version (mergeKnowledge cxKnowE cxKnowF ("t")).version
    ∧ (mergeKnowledge cxKnowE cxKnowF ("t")).version = ("1.10.0") := by
  have hv : IsDottedVersion cxKnowE.version := by
    constructor
    · decide
    · decide
  obtain ⟨maj, minor, rest, h1, h2, h3, h4, h5⟩ :=
    C2_version_monotonicity cxKnowE cxKnowF ("t") hv
  exact ⟨hv, h5, by decide⟩

/-- C1 (amended): merge preserves customizations matched per category and
path: if the fresh snapshot has category `cat` containing page `p` and the
existing snapshot's pages under the same category contain a page at `p.path`
(the last such, per JS Map semantics) whose `customData` is present, the
merged snapshot's category `cat` contains `p` carrying that `customData`
(in particular a fresh page without custom data inherits it); and every
fresh form whose action path matches an existing form (the first such) with
`customTestData` present carries it in the merged snapshot. -/
theorem C1_merge_preserves_customizations (existing fresh : Knowledge) (now : String) :
    (∀ cat ps p ep d,
      (cat, ps) ∈ fresh.pages → p ∈ ps →
      lastPageWithPath ((List.lookup cat existing.pages).getD []) p.path = some ep →
      ep.customData = some d →
      ∃ ps2, (cat, ps2) ∈ (mergeKnowledge existing fresh now).pages
        ∧ { p with customData := some d } ∈ ps2)
    ∧ (∀ f ef t,
      f ∈ fresh.forms →
      existing.forms.find? (fun g => g.action.path == f.action.path) = some ef →
      ef.customTestData = some t →
      { f with customTestData := some t } ∈ (mergeKnowledge existing fresh now).forms) := by
  constructor
  · intro cat ps p ep d hcat hp hlast hd
    have hpages : (mergeKnowledge existing fresh now).pages
        = fresh.pages.map (fun cp => (cp.1, cp.2.map (mergePageEntry existing.pages cp.1)))
      := rfl
    refine ⟨ps.map (mergePageEntry existing.pages cat), ?_, ?_⟩
    · rw [hpages]
      exact List.mem_map.mpr ⟨(cat, ps), hcat, rfl⟩
    · refine List.mem_map.mpr ⟨p, hp, ?_⟩
      unfold mergePageEntry
      simp [hlast, hd]
  · intro f ef t hf hfind ht
    have hforms : (mergeKnowledge existing fresh now).forms
        = fresh.forms.map (mergeFormEntry existing.forms) := rfl
    rw [hforms]
    refine List.mem_map.mpr ⟨f, hf, ?_⟩
    unfold mergeFormEntry
    simp [hfind, ht]

/-- C1 counterexample: the path `/p` exists in both snapshots and the
existing page carries custom data, but the fresh snapshot buckets `/p`
under a different category, so the merged record at `/p` has no custom
data — pages are matched per category and path, not by path alone as the
claim states. -/
theorem C1_counterexample :
    cxPageP ∈ (cxExisting.pages.map Prod.snd).flatten
    ∧ cxPageP.path = cxPagePFresh.path
    ∧ cxPageP.customData = some ("x")
    ∧ cxPagePFresh ∈ (cxFresh.pages.map Prod.snd).flatten
    ∧ ((mergeKnowledge cxExisting cxFresh ("t")).pages.map Prod.snd).flatten
        = [cxPagePFresh]
    ∧ cxPagePFresh.customData = none := by
  decide

/-- C1 witness: the amended theorem applied to the same-category snapshots,
showing the customization carried onto the merged page. -/
theorem C1_witness :
    ({ cxPagePFresh with customData := some ("x") } : KPage)
      ∈ ((mergeKnowledge cxExisting cxFresh2 ("t")).pages.map Prod.snd).flatten := by
  obtain ⟨ps2, h1, h2⟩ :=
    (C1_merge_preserves_customizations cxExisting cxFresh2 ("t")).1
      ("auth") [cxPagePFresh] cxPagePFresh cxPageP ("x")
      (by decide) (by decide) (by decide) (by decide)
  exact List.mem_flatten.mpr ⟨ps2, List.mem_map.mpr ⟨(("auth"), ps2), h1, rfl⟩, h2⟩

/-- C8: every merge call appends exactly one entry to the history carried
over from the existing snapshot (prior entries are preserved verbatim),
recording the timestamp, previous and new versions, and the added counts of
pages, forms and flows; on the concrete calendar scenario (one added page,
no form changes) the appended entry reports pagesAdded = 1 and
formsAdded = 0, the version is bumped, and the merged pages gain the
calendar path. -/
theorem C8_update_history_append (existing fresh : Knowledge) (now : String) :
    (∃ entry : UpdateEntry,
      (mergeKnowledge existing fresh now).updateHistory
          = some ((existing.updateHistory.getD []) ++ [entry])
      ∧ entry.date = now
      ∧ entry.previousVersion = existing.version
      ∧ entry.newVersion = (mergeKnowledge existing fresh now).version
      ∧ entry.pagesAdded
          = countNewPages existing.pages (mergeKnowledge existing fresh now).pages
      ∧ entry.formsAdded
          = (fresh.forms.length : Int) - (existing.forms.length : Int)
      ∧ entry.flowsAdded
          = (fresh.userFlows.length : Int) - (existing.userFlows.length : Int))
    ∧ ((mergeKnowledge cxKnowE cxKnowF ("t")).updateHistory.getD []).map
          (fun e => (e.pagesAdded, e.formsAdded)) = [(1, 0)]
    ∧ (mergeKnowledge cxKnowE cxKnowF ("t")).version = ("1.10.0")
    ∧ ((mergeKnowledge cxKnowE cxKnowF ("t")).pages.map Prod.snd).flatten.map
          (fun p => p.path) = [("/"), ("/calendar")] := by
  refine ⟨⟨mergeEntry existing fresh now, rfl, rfl, rfl, rfl, rfl, rfl, rfl⟩, ?_, ?_, ?_⟩
  · decide
  · decide
  · decide

/-- C10: mergeKnowledge is not a pure function of its inputs: the returned
merged object shares its (in-place updated) page and form records with the
fresh analysis, the new history entry is pushed onto the existing snapshot's
updateHistory array whenever that array exists, and on concrete inputs both
arguments are observably mutated.  The embedding returns the post-states of
(existing, fresh, merged). -/
theorem C10_merge_mutates_inputs (existing fresh : Knowledge) (now : String) :
    ((mergeKnowledgeFull existing fresh now).2.2.pages
        = (mergeKnowledgeFull existing fresh now).2.1.pages)
    ∧ ((mergeKnowledgeFull existing fresh now).2.2.forms
        = (mergeKnowledgeFull existing fresh now).2.1.forms)
    ∧ ((mergeKnowledgeFull existing fresh now).1.updateHistory
        = existing.updateHistory.map (fun h => h ++ [mergeEntry existing fresh now]))
    ∧ ((mergeKnowledgeFull existing fresh now).2.2.updateHistory
        = some ((existing.updateHistory.getD []) ++ [mergeEntry existing fresh now]))
    ∧ ((mergeKnowledgeFull cxExisting cxFresh2 ("t")).1 ≠ cxExisting
        ∧ (mergeKnowledgeFull cxExisting cxFresh2 ("t")).2.1 ≠ cxFresh2) := by
  exact ⟨rfl, rfl, rfl, rfl, by decide, by decide⟩

/-! ## Backup-before-overwrite ordering (C9) -/

/-- File-system events of one `updateSkill` run that touch the generated
artifacts. -/
inductive UpdateEvent where
  | copyToBackup (file : String)
  | writeArtifact (file : String)
deriving DecidableEq, Repr

/-- The four generated artifacts (`filesToBackup` in the source). -/
def artifactFiles : List String :=
  [("SKILL.md"), ("app-knowledge.json"), ("test-patterns.js"), ("README.md")]

/-- Embedding of `backupExistingSkill()`: each of the four artifacts that
currently exists is copied into the timestamped backup directory;
`present` abstracts `fs.existsSync`. -/
def backupExistingSkill (present : String → Bool) : List UpdateEvent :=
  (artifactFiles.filter present).map UpdateEvent.copyToBackup

/-- Modelled from the spec: the skill generator (`generator.js`, not part of
the corpus) overwrites the four generated artifacts SKILL.md,
app-knowledge.json, test-patterns.js and README.md. -/
def generateArtifacts : List UpdateEvent :=
  artifactFiles.map UpdateEvent.writeArtifact

/-- Embedding of the artifact-touching effect order of `updateSkill()`:
after the in-memory merge, `backupExistingSkill()` runs to completion and
only then does `generator.generate()` write the artifacts. -/
def updateSkillTrace (present : String → Bool) : List UpdateEvent :=
  backupExistingSkill present ++ generateArtifacts

/-- Discriminator for backup events. -/
def isBackupEvent : UpdateEvent → Bool
  | UpdateEvent.copyToBackup _ => true
  | UpdateEvent.writeArtifact _ => false

theorem backupExistingSkill_all (present : String → Bool) :
    ∀ e ∈ backupExistingSkill present, isBackupEvent e = true := by
  intro e he
  simp only [backupExistingSkill, List.mem_map] at he
  obtain ⟨f, hf, rfl⟩ := he
  rfl

theorem generateArtifacts_all :
    ∀ e ∈ generateArtifacts, isBackupEvent e = false := by
  intro e he
  simp only [generateArtifacts, List.mem_map] at he
  obtain ⟨f, hf, rfl⟩ := he
  rfl

/-- C9: in every update run a backup of the (existing) generated artifacts
is written to the timestamped backup location strictly before any artifact
is overwritten by the newly generated skill: in the run's event trace,
every backup copy precedes every artifact write. -/
theorem C9_backup_before_overwrite (present : String → Bool)
    (i j : Nat) (hi : i < (updateSkillTrace present).length)
    (hj : j < (updateSkillTrace present).length)
    (hbackup : isBackupEvent ((updateSkillTrace present).get ⟨i, hi⟩) = true)
    (hwrite : isBackupEvent ((updateSkillTrace present).get ⟨j, hj⟩) = false) :
    i < j := by
  have hiB : i < (backupExistingSkill present).length := by
    by_contra hc
    push_neg at hc
    have hlt : i - (backupExistingSkill present).length < generateArtifacts.length := by
      have := hi
      simp only [updateSkillTrace, List.length_append] at this
      omega
    have hget : (updateSkillTrace present).get ⟨i, hi⟩
        = generateArtifacts.get ⟨i - (backupExistingSkill present).length, hlt⟩ := by
      rw [List.get_eq_getElem, List.get_eq_getElem]
      exact List.getElem_append_right hc
    rw [hget] at hbackup
    rw [generateArtifacts_all _ (List.get_mem _ _ _)] at hbackup
    cases hbackup
  have hjB : (backupExistingSkill present).length ≤ j := by
    by_contra hc
    push_neg at hc
    have hget : (updateSkillTrace present).get ⟨j, hj⟩
        = (backupExistingSkill present).get ⟨j, hc⟩ := by
      rw [List.get_eq_getElem, List.get_eq_getElem]
      exact List.getElem_append_left hc
    rw [hget] at hwrite
    rw [backupExistingSkill_all present _ (List.get_mem _ _ _)] at hwrite
    cases hwrite
  omega

/-- C9 witness: the ordering theorem applied to the run where all four
artifacts exist, with the first backup copy and the first artifact write. -/
theorem C9_witness : (0 : Nat) < 4 :=
  C9_backup_before_overwrite (fun _ => true) 0 4 (by decide) (by decide)
    (by decide) (by decide)

end Pullup
